import Mathlib

/-!
Verification of the kana romanization chunker from `src/main.rs`.

The source is a Rust program built on the `combine` parser-combinator
library.  We embed it shallowly: strings are modelled as `List Char`
(with `String` for the produced chunks), and each combinator parser of
the source becomes a Lean function `List Char → PResult α`, where
`PResult` records the result, the remaining input, and whether input was
consumed — the consumed flag is essential because `combine`'s `choice`,
`optional` and `many` recover only from errors that consumed no input.
-/

/-- Chars of the source constant `HIRAGANA` (src/main.rs line 4). -/
def HIRAGANA : List Char :=
  "あいうえおかがきぎくぐけげこごさざしじすずせぜそぞただちぢつづてでとどなにぬねのはばぱひびぴふぶぷへべぺほぼぽまみむめもやゆよらりるれろわゐゑをんー".toList

/-- Chars of the source constant `KATAKANA` (src/main.rs line 5). -/
def KATAKANA : List Char :=
  "アイウエオカガキギクグケゲコゴサザシジスズセゼソゾタダチヂツヅテデトドナニヌネノハバパヒビピフブプヘベペホボポマミムメモヤユヨラリルレロワヰヱヲンー".toList

/-- Chars of the source constant `SUTEGANA` (src/main.rs line 6). -/
def SUTEGANA : List Char := "ァィゥェォャュョぁぃぅぇぉゃゅょ".toList

/-- Chars of the source constant `SOKUON` (src/main.rs line 7). -/
def SOKUON : List Char := "っッ".toList

/-- Mirrors the Rust struct `TypingTarget` (src/main.rs lines 9-17). -/
structure TypingTarget where
  displayed_chunks : List String
  typed_chunks : List String
  fixed : Bool
  disabled : Bool
deriving Repr, DecidableEq

/-- Mirrors the Rust struct `DisplayedTypedPair` (src/main.rs lines 19-23). -/
structure DisplayedTypedPair where
  displayed : String
  typed : String
deriving Repr, DecidableEq

/-- Result of running an embedded `combine` parser: success carries the
value, the remaining input and a consumed-input flag; failure carries the
consumed-input flag.  `combine` recovers from an error in `choice` /
`optional` / `many` only when nothing was consumed. -/
inductive PResult (A : Type) where
  | ok (val : A) (rest : List Char) (consumed : Bool)
  | err (consumed : Bool)
deriving Repr, DecidableEq

/-- The arms of the romanization table match in `kana_to_typed_chunks`
(src/main.rs lines 25-248), in source order, keyed by the combined kana
unit as a `List Char`. -/
def kana_table : List (List Char × String) :=
 [
  (['あ'], "a"),
  (['い'], "i"),
  (['う'], "u"),
  (['え'], "e"),
  (['お'], "o"),
  (['か'], "ka"),
  (['が'], "ga"),
  (['き'], "ki"),
  (['ぎ'], "gi"),
  (['く'], "ku"),
  (['ぐ'], "gu"),
  (['け'], "ke"),
  (['げ'], "ge"),
  (['こ'], "ko"),
  (['ご'], "go"),
  (['さ'], "sa"),
  (['ざ'], "za"),
  (['し'], "shi"),
  (['じ'], "ji"),
  (['す'], "su"),
  (['ず'], "zu"),
  (['せ'], "se"),
  (['ぜ'], "ze"),
  (['そ'], "so"),
  (['ぞ'], "zo"),
  (['た'], "ta"),
  (['だ'], "da"),
  (['ち'], "chi"),
  (['ぢ'], "ji"),
  (['つ'], "tsu"),
  (['づ'], "dzu"),
  (['て'], "te"),
  (['で'], "de"),
  (['と'], "to"),
  (['ど'], "do"),
  (['な'], "na"),
  (['に'], "ni"),
  (['ぬ'], "nu"),
  (['ね'], "ne"),
  (['の'], "no"),
  (['は'], "ha"),
  (['ば'], "ba"),
  (['ぱ'], "pa"),
  (['ひ'], "hi"),
  (['び'], "bi"),
  (['ぴ'], "pi"),
  (['ふ'], "fu"),
  (['ぶ'], "bu"),
  (['ぷ'], "pu"),
  (['へ'], "he"),
  (['べ'], "be"),
  (['ぺ'], "pe"),
  (['ほ'], "ho"),
  (['ぼ'], "bo"),
  (['ぽ'], "po"),
  (['ま'], "ma"),
  (['み'], "mi"),
  (['む'], "mu"),
  (['め'], "me"),
  (['も'], "mo"),
  (['や'], "ya"),
  (['ゆ'], "yu"),
  (['よ'], "yo"),
  (['ら'], "ra"),
  (['り'], "ri"),
  (['る'], "ru"),
  (['れ'], "re"),
  (['ろ'], "ro"),
  (['わ'], "wa"),
  (['ゐ'], "wi"),
  (['ゑ'], "we"),
  (['を'], "wo"),
  (['ん'], "nn"),
  (['き', 'ゃ'], "kya"),
  (['き', 'ゅ'], "kyu"),
  (['き', 'ょ'], "kyo"),
  (['し', 'ゃ'], "sha"),
  (['し', 'ゅ'], "shu"),
  (['し', 'ょ'], "sho"),
  (['ち', 'ゃ'], "cha"),
  (['ち', 'ゅ'], "chu"),
  (['ち', 'ょ'], "cho"),
  (['に', 'ゃ'], "nya"),
  (['に', 'ゅ'], "nyu"),
  (['に', 'ょ'], "nyo"),
  (['ひ', 'ゃ'], "hya"),
  (['ひ', 'ゅ'], "hyu"),
  (['ひ', 'ょ'], "hyo"),
  (['み', 'ゃ'], "mya"),
  (['み', 'ゅ'], "myu"),
  (['み', 'ょ'], "myo"),
  (['り', 'ゃ'], "rya"),
  (['り', 'ゅ'], "ryu"),
  (['り', 'ょ'], "ryo"),
  (['ぎ', 'ゃ'], "gya"),
  (['ぎ', 'ゅ'], "gyu"),
  (['ぎ', 'ょ'], "gyo"),
  (['じ', 'ゃ'], "ja"),
  (['じ', 'ゅ'], "ju"),
  (['じ', 'ょ'], "jo"),
  (['び', 'ゃ'], "bya"),
  (['び', 'ゅ'], "byu"),
  (['び', 'ょ'], "byo"),
  (['ぴ', 'ゃ'], "pya"),
  (['ぴ', 'ゅ'], "pyu"),
  (['ぴ', 'ょ'], "pyo"),
  (['ア'], "a"),
  (['イ'], "i"),
  (['ウ'], "u"),
  (['エ'], "e"),
  (['オ'], "o"),
  (['カ'], "ka"),
  (['ガ'], "ga"),
  (['キ'], "ki"),
  (['ギ'], "gi"),
  (['ク'], "ku"),
  (['グ'], "gu"),
  (['ケ'], "ke"),
  (['ゲ'], "ge"),
  (['コ'], "ko"),
  (['ゴ'], "go"),
  (['サ'], "sa"),
  (['ザ'], "za"),
  (['シ'], "shi"),
  (['ジ'], "ji"),
  (['ス'], "su"),
  (['ズ'], "zu"),
  (['セ'], "se"),
  (['ゼ'], "ze"),
  (['ソ'], "so"),
  (['ゾ'], "zo"),
  (['タ'], "ta"),
  (['ダ'], "da"),
  (['チ'], "chi"),
  (['ヂ'], "ji"),
  (['ツ'], "tsu"),
  (['ヅ'], "dzu"),
  (['テ'], "te"),
  (['デ'], "de"),
  (['ト'], "to"),
  (['ド'], "do"),
  (['ナ'], "na"),
  (['ニ'], "ni"),
  (['ヌ'], "nu"),
  (['ネ'], "ne"),
  (['ノ'], "no"),
  (['ハ'], "ha"),
  (['バ'], "ba"),
  (['パ'], "pa"),
  (['ヒ'], "hi"),
  (['ビ'], "bi"),
  (['ピ'], "pi"),
  (['フ'], "fu"),
  (['ブ'], "bu"),
  (['プ'], "pu"),
  (['ヘ'], "he"),
  (['ベ'], "be"),
  (['ペ'], "pe"),
  (['ホ'], "ho"),
  (['ボ'], "bo"),
  (['ポ'], "po"),
  (['マ'], "ma"),
  (['ミ'], "mi"),
  (['ム'], "mu"),
  (['メ'], "me"),
  (['モ'], "mo"),
  (['ヤ'], "ya"),
  (['ユ'], "yu"),
  (['ヨ'], "yo"),
  (['ラ'], "ra"),
  (['リ'], "ri"),
  (['ル'], "ru"),
  (['レ'], "re"),
  (['ロ'], "ro"),
  (['ワ'], "wa"),
  (['ヰ'], "wi"),
  (['ヱ'], "we"),
  (['ヲ'], "wo"),
  (['ン'], "nn"),
  (['ー'], "-"),
  (['キ', 'ャ'], "kya"),
  (['キ', 'ュ'], "kyu"),
  (['キ', 'ョ'], "kyo"),
  (['シ', 'ャ'], "sha"),
  (['シ', 'ュ'], "shu"),
  (['シ', 'ョ'], "sho"),
  (['チ', 'ャ'], "cha"),
  (['チ', 'ュ'], "chu"),
  (['チ', 'ョ'], "cho"),
  (['ニ', 'ャ'], "nya"),
  (['ニ', 'ュ'], "nyu"),
  (['ニ', 'ョ'], "nyo"),
  (['ヒ', 'ャ'], "hya"),
  (['ヒ', 'ュ'], "hyu"),
  (['ヒ', 'ョ'], "hyo"),
  (['ミ', 'ャ'], "mya"),
  (['ミ', 'ュ'], "myu"),
  (['ミ', 'ョ'], "myo"),
  (['リ', 'ャ'], "rya"),
  (['リ', 'ュ'], "ryu"),
  (['リ', 'ョ'], "ryo"),
  (['ギ', 'ャ'], "gya"),
  (['ギ', 'ュ'], "gyu"),
  (['ギ', 'ョ'], "gyo"),
  (['ジ', 'ャ'], "ja"),
  (['ジ', 'ュ'], "ju"),
  (['ジ', 'ョ'], "jo"),
  (['ビ', 'ャ'], "bya"),
  (['ビ', 'ュ'], "byu"),
  (['ビ', 'ョ'], "byo"),
  (['ピ', 'ャ'], "pya"),
  (['ピ', 'ュ'], "pyu"),
  (['ピ', 'ョ'], "pyo"),
  (['ウ', 'ェ'], "we")
 ]

/-- The romanization table `kana_to_typed_chunks` (src/main.rs lines
25-248), keyed by the combined kana unit, here a `List Char`.  The source
is a `match` over string literals with distinct keys and a `None`
catch-all; a first-match lookup over the same arms in the same order is
the same function. -/
def kana_to_typed_chunks (kana : List Char) : Option String :=
  (kana_table.find? (fun p => p.1 == kana)).map (fun p => p.2)

/-- The body of the closure inside `kana_chunk` (src/main.rs lines
311-338): given the optional sokuon, the combined kana string and the
remaining input, build the emitted pairs.  An absent table entry yields
an empty pair list while the input stays consumed. -/
def mk_pairs (sokuon : Option Char) (combined : List Char)
    (rest : List Char) : PResult (List DisplayedTypedPair) :=
  match kana_to_typed_chunks combined with
  | some typed =>
    match sokuon with
    | some s =>
      .ok [⟨String.mk [s], String.mk [typed.front]⟩,
           ⟨String.mk combined, typed⟩] rest true
    | none => .ok [⟨String.mk combined, typed⟩] rest true
  | none => .ok [] rest true

/-- The mora-plus-optional-sutegana part of `kana_chunk` (src/main.rs
lines 308-317): after the mora, `optional(one_of(SUTEGANA.chars()))`
consumes one following sutegana character whenever one is present. -/
def kana_core (sokuon : Option Char) (mora : Char) :
    List Char → PResult (List DisplayedTypedPair)
  | d :: r2 =>
    if d ∈ SUTEGANA then mk_pairs sokuon [mora, d] r2
    else mk_pairs sokuon [mora] (d :: r2)
  | [] => mk_pairs sokuon [mora] []

/-- The parser `kana_chunk` (src/main.rs lines 301-340):
`optional(one_of(SOKUON))`, then a hiragana-or-katakana mora, then an
optional sutegana, mapped through the chunk-building closure.  When the
sokuon was consumed and the mora parser then fails, the failure is a
consumed error. -/
def kana_chunk (input : List Char) : PResult (List DisplayedTypedPair) :=
  match input with
  | [] => .err false
  | c :: r =>
    if c ∈ SOKUON then
      match r with
      | m :: r2 =>
        if m ∈ HIRAGANA ∨ m ∈ KATAKANA then kana_core (some c) m r2
        else .err true
      | [] => .err true
    else
      if c ∈ HIRAGANA ∨ c ∈ KATAKANA then kana_core none c r
      else .err false

/-- Length of the remaining input never grows when `mk_pairs` succeeds. -/
theorem mk_pairs_rest {sokuon : Option Char} {combined rest : List Char}
    {p : List DisplayedTypedPair} {rest2 : List Char} {b : Bool}
    (h : mk_pairs sokuon combined rest = .ok p rest2 b) : rest2 = rest := by
  unfold mk_pairs at h
  split at h
  · split at h
    · cases h; rfl
    · cases h; rfl
  · cases h; rfl

/-- `kana_core` consumes nothing beyond the input it was handed. -/
theorem kana_core_rest {sokuon : Option Char} {mora : Char} {r : List Char}
    {p : List DisplayedTypedPair} {rest : List Char} {b : Bool}
    (h : kana_core sokuon mora r = .ok p rest b) : rest.length ≤ r.length := by
  unfold kana_core at h
  split at h
  · split at h
    · cases mk_pairs_rest h
      exact Nat.le_succ _
    · cases mk_pairs_rest h
      exact Nat.le_refl _
  · cases mk_pairs_rest h
    exact Nat.le_refl _

/-- A successful `kana_chunk` consumes at least one character: the mora is
mandatory. -/
theorem kana_chunk_rest {input : List Char} {p : List DisplayedTypedPair}
    {rest : List Char} {b : Bool}
    (h : kana_chunk input = .ok p rest b) : rest.length < input.length := by
  unfold kana_chunk at h
  split at h
  · cases h
  · rename_i c r
    split at h
    · split at h
      · rename_i m r2
        split at h
        · have := kana_core_rest h
          simp only [List.length_cons]
          omega
        · cases h
      · cases h
    · split at h
      · have := kana_core_rest h
        simp only [List.length_cons]
        omega
      · cases h

/-- Fueled unfolding of `many(kana_chunk())` (src/main.rs line 285).  Each
successful `kana_chunk` consumes at least one character
(`kana_chunk_rest`), so fuel equal to the input length makes the zero-fuel
base case reachable only on empty input, where it coincides with `many`'s
stop-on-empty-error behaviour. -/
def many_kana_chunk_fuel : Nat → List Char → PResult (List (List DisplayedTypedPair))
  | 0, input => .ok [] input false
  | n+1, input =>
    match kana_chunk input with
    | .ok pairs rest _ =>
      match many_kana_chunk_fuel n rest with
      | .ok tail rest2 _ => .ok (pairs :: tail) rest2 true
      | .err _ => .err true
    | .err true => .err true
    | .err false => .ok [] input false

/-- `many(kana_chunk())` as used inside `parenthetical` (src/main.rs line
285): stops on an unconsumed error, fails on a consumed one. -/
def many_kana_chunk (input : List Char) : PResult (List (List DisplayedTypedPair)) :=
  many_kana_chunk_fuel input.length input

/-- The parser `parenthetical` (src/main.rs lines 276-299):
`many1(satisfy(|c| c != '('))` for the outside text, then `'('`,
`many(kana_chunk())` and `')'`; the typed text is the concatenation of the
typed chunks of everything recognized inside the parentheses. -/
def parenthetical (input : List Char) : PResult DisplayedTypedPair :=
  match input.dropWhile (fun c => c != '(') with
  | '(' :: r2 =>
    if input.takeWhile (fun c => c != '(') = [] then .err false
    else
      match many_kana_chunk r2 with
      | .ok inside rest3 _ =>
        match rest3 with
        | ')' :: r4 =>
          .ok ⟨String.mk (input.takeWhile (fun c => c != '(')),
               String.join ((inside.flatten).map (fun f => f.typed))⟩ r4 true
        | _ => .err true
      | .err _ => .err true
  | _ => if input.takeWhile (fun c => c != '(') = [] then .err false else .err true

/-- One iteration of the loop in `japanese` (src/main.rs lines 255-258):
`choice((kana_chunk(), parenthetical().map(|x| vec![x])))`.  The second
alternative is tried only when the first failed without consuming. -/
def chunk_step (input : List Char) : PResult (List DisplayedTypedPair) :=
  match kana_chunk input with
  | .ok pairs rest c => .ok pairs rest c
  | .err true => .err true
  | .err false =>
    match parenthetical input with
    | .ok pair rest c => .ok [pair] rest c
    | .err c => .err c

/-- Fueled unfolding of the `many` part of `many1(choice(...))` in
`japanese`; as with `many_kana_chunk_fuel`, fuel equal to the input length
is exact because every successful `chunk_step` consumes input. -/
def many_chunks_fuel : Nat → List Char → PResult (List (List DisplayedTypedPair))
  | 0, input => .ok [] input false
  | n+1, input =>
    match chunk_step input with
    | .ok pairs rest _ =>
      match many_chunks_fuel n rest with
      | .ok tail rest2 _ => .ok (pairs :: tail) rest2 true
      | .err _ => .err true
    | .err true => .err true
    | .err false => .ok [] input false

/-- The `many` part of `many1(choice(...))` in `japanese`. -/
def many_chunks (input : List Char) : PResult (List (List DisplayedTypedPair)) :=
  many_chunks_fuel input.length input

/-- The aggregation closure of `japanese` (src/main.rs lines 259-273):
flatten the per-iteration pair lists and split them into the two chunk
vectors of a `TypingTarget`; `fixed` and `disabled` come from `Default`. -/
def mk_target (part : List (List DisplayedTypedPair)) : TypingTarget :=
  { displayed_chunks := part.flatten.map (fun f => f.displayed)
  , typed_chunks := part.flatten.map (fun f => f.typed)
  , fixed := false
  , disabled := false }

/-- The parser `japanese` (src/main.rs lines 250-274):
`many1(choice((kana_chunk(), parenthetical().map(..)))).map(..)`. -/
def japanese (input : List Char) : PResult TypingTarget :=
  match chunk_step input with
  | .ok pairs rest _ =>
    match many_chunks rest with
    | .ok tail rest2 _ => .ok (mk_target (pairs :: tail)) rest2 true
    | .err _ => .err true
  | .err c => .err c

/-- One unit of the kana-run grammar, used to state the coverage
invariant: an optional sokuon, a mandatory mora, an optional sutegana. -/
structure KanaUnit where
  sokuon : Option Char
  mora : Char
  sutegana : Option Char
deriving Repr, DecidableEq

/-- The characters a `KanaUnit` occupies in the source text. -/
def KanaUnit.chars (u : KanaUnit) : List Char :=
  u.sokuon.toList ++ u.mora :: u.sutegana.toList

/-- A table-recognized kana unit: the optional sokuon is a sokuon
character, the mora is hiragana or katakana, the optional sutegana is a
sutegana character, and the combined mora-plus-sutegana string has a
romanization table entry. -/
def KanaUnit.Recognized (u : KanaUnit) : Prop :=
  (∀ s ∈ u.sokuon.toList, s ∈ SOKUON) ∧
  (u.mora ∈ HIRAGANA ∨ u.mora ∈ KATAKANA) ∧
  (∀ d ∈ u.sutegana.toList, d ∈ SUTEGANA) ∧
  (kana_to_typed_chunks (u.mora :: u.sutegana.toList)).isSome = true

instance (u : KanaUnit) : Decidable u.Recognized := by
  unfold KanaUnit.Recognized
  infer_instance

/-- The source text formed by a list of kana units. -/
def unitsChars (units : List KanaUnit) : List Char :=
  (units.map KanaUnit.chars).flatten

/-- The characters displayed by a list of emitted pairs, in order. -/
def pairsChars (pairs : List DisplayedTypedPair) : List Char :=
  (pairs.map (fun f => f.displayed.toList)).flatten

/-- No hiragana or katakana character is a sokuon or a sutegana. -/
theorem hiragana_disjoint : ∀ c ∈ HIRAGANA, ¬c ∈ SOKUON ∧ ¬c ∈ SUTEGANA := by
  decide

/-- No katakana character is a sokuon or a sutegana. -/
theorem katakana_disjoint : ∀ c ∈ KATAKANA, ¬c ∈ SOKUON ∧ ¬c ∈ SUTEGANA := by
  decide

/-- No sokuon character is a sutegana. -/
theorem sokuon_disjoint : ∀ c ∈ SOKUON, ¬c ∈ SUTEGANA := by decide

/-- A mora character is never a sokuon character. -/
theorem mora_not_sokuon {c : Char} (h : c ∈ HIRAGANA ∨ c ∈ KATAKANA) :
    ¬c ∈ SOKUON := by
  cases h with
  | inl h => exact (hiragana_disjoint c h).1
  | inr h => exact (katakana_disjoint c h).1

/-- A mora character is never a sutegana character. -/
theorem mora_not_sutegana {c : Char} (h : c ∈ HIRAGANA ∨ c ∈ KATAKANA) :
    ¬c ∈ SUTEGANA := by
  cases h with
  | inl h => exact (hiragana_disjoint c h).2
  | inr h => exact (katakana_disjoint c h).2

/-- A non-empty `String.mk` is not the empty string. -/
theorem string_mk_cons_ne (c : Char) (l : List Char) :
    String.mk (c :: l) ≠ "" := by
  intro h
  have h2 := congrArg String.data h
  simp at h2

set_option maxRecDepth 8192 in
/-- Every spelling stored in the romanization table is non-empty. -/
theorem table_values_ne : ∀ p ∈ kana_table, p.2 ≠ "" := by decide

/-- A spelling returned by a table lookup is non-empty. -/
theorem table_typed_ne {l : List Char} {s : String}
    (h : kana_to_typed_chunks l = some s) : s ≠ "" := by
  unfold kana_to_typed_chunks at h
  cases hf : kana_table.find? (fun p => p.1 == l) with
  | none => rw [hf] at h; cases h
  | some p =>
    rw [hf] at h
    cases h
    exact table_values_ne p (List.mem_of_find?_eq_some hf)

/-- The fueled `many(kana_chunk())` never hands back more input than it
received. -/
theorem many_kana_chunk_fuel_rest : ∀ (n : Nat) (input : List Char)
    {tail : List (List DisplayedTypedPair)} {rest : List Char} {b : Bool},
    many_kana_chunk_fuel n input = .ok tail rest b →
    rest.length ≤ input.length := by
  intro n
  induction n with
  | zero =>
    intro input tail rest b h
    cases h
    exact Nat.le_refl _
  | succ n ih =>
    intro input tail rest b h
    simp only [many_kana_chunk_fuel] at h
    split at h
    · rename_i pairs rest1 c1 hk
      split at h
      · rename_i tail2 rest2 b2 hm
        cases h
        exact Nat.le_trans (ih rest1 hm) (Nat.le_of_lt (kana_chunk_rest hk))
      · cases h
    · cases h
    · cases h
      exact Nat.le_refl _

/-- `many(kana_chunk())` never hands back more input than it received. -/
theorem many_kana_chunk_rest {input : List Char}
    {tail : List (List DisplayedTypedPair)} {rest : List Char} {b : Bool}
    (h : many_kana_chunk input = .ok tail rest b) :
    rest.length ≤ input.length :=
  many_kana_chunk_fuel_rest _ _ h

/-- A successful `parenthetical` consumes at least one character. -/
theorem parenthetical_rest {input : List Char} {pair : DisplayedTypedPair}
    {rest : List Char} {b : Bool}
    (h : parenthetical input = .ok pair rest b) : rest.length < input.length := by
  unfold parenthetical at h
  split at h
  · rename_i r2 hdrop
    split at h
    · cases h
    · split at h
      · rename_i inside rest3 c3 hm
        split at h
        · rename_i r4
          cases h
          have h1 := many_kana_chunk_rest hm
          have h2 : (input.takeWhile (fun c => c != '(')).length +
              ('(' :: r2).length = input.length := by
            rw [← List.length_append, ← hdrop, List.takeWhile_append_dropWhile]
          simp only [List.length_cons] at h1 h2
          omega
        · cases h
      · cases h
  · split at h
    · cases h
    · cases h

/-- One iteration of the `japanese` loop consumes at least one
character whenever it succeeds. -/
theorem chunk_step_rest {input : List Char} {p : List DisplayedTypedPair}
    {rest : List Char} {b : Bool}
    (h : chunk_step input = .ok p rest b) : rest.length < input.length := by
  unfold chunk_step at h
  split at h
  · rename_i pairs rest1 c1 hk
    cases h
    exact kana_chunk_rest hk
  · cases h
  · split at h
    · rename_i pair rest1 c1 hp
      cases h
      exact parenthetical_rest hp
    · cases h

/-- On empty input the chunk dispatch fails without consuming. -/
theorem chunk_step_nil : chunk_step [] = .err false := by decide

/-- On empty input the fueled loop stops immediately, for any fuel. -/
theorem many_chunks_fuel_nil : ∀ n, many_chunks_fuel n [] = .ok [] [] false := by
  intro n
  cases n <;> rfl

/-- Fuel at least the input length is always enough: the loop's result is
the same for any such fuel, because every iteration consumes at least one
character. -/
theorem many_chunks_fuel_congr : ∀ (n m : Nat) (input : List Char),
    input.length ≤ n → input.length ≤ m →
    many_chunks_fuel n input = many_chunks_fuel m input := by
  intro n
  induction n with
  | zero =>
    intro m input h1 h2
    have h0 : input = [] := List.length_eq_zero.mp (Nat.le_zero.mp h1)
    subst h0
    rw [many_chunks_fuel_nil, many_chunks_fuel_nil]
  | succ n ih =>
    intro m input h1 h2
    cases m with
    | zero =>
      have h0 : input = [] := List.length_eq_zero.mp (Nat.le_zero.mp h2)
      subst h0
      rw [many_chunks_fuel_nil, many_chunks_fuel_nil]
    | succ m =>
      simp only [many_chunks_fuel]
      cases hstep : chunk_step input with
      | ok pairs rest c =>
        have hlt := chunk_step_rest hstep
        have he := ih m rest (by omega) (by omega)
        simp only [he]
      | err c => cases c <;> rfl

/-- Every pair `mk_pairs` emits for a non-empty combined kana string has a
non-empty displayed part and a non-empty typed part. -/
theorem mk_pairs_pairs_ne {sokuon : Option Char} {c0 : Char}
    {ctail rest : List Char} {p : List DisplayedTypedPair}
    {rest2 : List Char} {b : Bool}
    (h : mk_pairs sokuon (c0 :: ctail) rest = .ok p rest2 b) :
    ∀ f ∈ p, f.displayed ≠ "" ∧ f.typed ≠ "" := by
  unfold mk_pairs at h
  split at h
  · rename_i typed heq
    have hty := table_typed_ne heq
    split at h
    · cases h
      intro f hf
      rcases List.mem_cons.mp hf with rfl | hf
      · exact ⟨string_mk_cons_ne _ _, string_mk_cons_ne _ _⟩
      · rcases List.mem_cons.mp hf with rfl | hf
        · exact ⟨string_mk_cons_ne _ _, hty⟩
        · cases hf
    · cases h
      intro f hf
      rcases List.mem_cons.mp hf with rfl | hf
      · exact ⟨string_mk_cons_ne _ _, hty⟩
      · cases hf
  · cases h
    intro f hf
    cases hf

/-- Every pair `kana_core` emits has non-empty displayed and typed
parts. -/
theorem kana_core_pairs_ne {sokuon : Option Char} {mora : Char}
    {r : List Char} {p : List DisplayedTypedPair} {rest2 : List Char}
    {b : Bool} (h : kana_core sokuon mora r = .ok p rest2 b) :
    ∀ f ∈ p, f.displayed ≠ "" ∧ f.typed ≠ "" := by
  unfold kana_core at h
  split at h
  · split at h
    · exact mk_pairs_pairs_ne h
    · exact mk_pairs_pairs_ne h
  · exact mk_pairs_pairs_ne h

/-- Every pair `kana_chunk` emits has non-empty displayed and typed
parts. -/
theorem kana_chunk_pairs_ne {input : List Char}
    {p : List DisplayedTypedPair} {rest : List Char} {b : Bool}
    (h : kana_chunk input = .ok p rest b) :
    ∀ f ∈ p, f.displayed ≠ "" ∧ f.typed ≠ "" := by
  unfold kana_chunk at h
  split at h
  · cases h
  · split at h
    · split at h
      · split at h
        · exact kana_core_pairs_ne h
        · cases h
      · cases h
    · split at h
      · exact kana_core_pairs_ne h
      · cases h

/-- The chunk `parenthetical` emits always displays the non-empty run
before the opening parenthesis. -/
theorem parenthetical_displayed_ne {input : List Char}
    {pair : DisplayedTypedPair} {rest : List Char} {b : Bool}
    (h : parenthetical input = .ok pair rest b) : pair.displayed ≠ "" := by
  unfold parenthetical at h
  split at h
  · split at h
    · cases h
    · rename_i hne
      split at h
      · split at h
        · cases h
          cases htake : input.takeWhile (fun c => c != '(') with
          | nil => exact absurd htake hne
          | cons a l => exact string_mk_cons_ne _ _
        · cases h
      · cases h
  · split at h
    · cases h
    · cases h

/-- Inversion for `mk_pairs` without a sokuon producing exactly one
pair: the combined kana has a table entry and the pair is determined. -/
theorem mk_pairs_none_inv {combined rest : List Char}
    {dp : DisplayedTypedPair} {rest2 : List Char} {b : Bool}
    (h : mk_pairs none combined rest = .ok [dp] rest2 b) :
    ∃ typed, kana_to_typed_chunks combined = some typed ∧
      dp = ⟨String.mk combined, typed⟩ ∧ rest2 = rest := by
  unfold mk_pairs at h
  split at h
  · rename_i typed heq
    cases h
    exact ⟨typed, heq, rfl, rfl⟩
  · cases h

/-- Adding a sokuon in front of a unit that produced exactly one pair
prepends the derived one-character pair and changes nothing else. -/
theorem mk_pairs_sokuon_of_none {combined rest : List Char}
    {dp : DisplayedTypedPair} {rest2 : List Char} {b : Bool} (s : Char)
    (h : mk_pairs none combined rest = .ok [dp] rest2 b) :
    mk_pairs (some s) combined rest =
      .ok [⟨String.mk [s], String.mk [dp.typed.front]⟩, dp] rest2 true := by
  obtain ⟨typed, heq, hdp, hrest⟩ := mk_pairs_none_inv h
  subst hdp hrest
  unfold mk_pairs
  rw [heq]

/-- The same prepending property lifted over the sutegana handling. -/
theorem kana_core_sokuon_of {mora : Char} {r : List Char}
    {dp : DisplayedTypedPair} {rest2 : List Char} {b : Bool} (s : Char)
    (h : kana_core none mora r = .ok [dp] rest2 b) :
    kana_core (some s) mora r =
      .ok [⟨String.mk [s], String.mk [dp.typed.front]⟩, dp] rest2 true := by
  cases r with
  | nil =>
    simp only [kana_core] at h ⊢
    exact mk_pairs_sokuon_of_none s h
  | cons d r2 =>
    simp only [kana_core] at h ⊢
    by_cases hd : d ∈ SUTEGANA
    · rw [if_pos hd] at h ⊢
      exact mk_pairs_sokuon_of_none s h
    · rw [if_neg hd] at h ⊢
      exact mk_pairs_sokuon_of_none s h

/-- With a sokuon present, `mk_pairs` never emits exactly one pair. -/
theorem mk_pairs_some_len {s : Char} {combined rest : List Char}
    {p : List DisplayedTypedPair} {rest2 : List Char} {b : Bool}
    (h : mk_pairs (some s) combined rest = .ok p rest2 b) : p.length ≠ 1 := by
  unfold mk_pairs at h
  split at h
  · cases h
    simp
  · cases h
    simp

/-- With a sokuon present, `kana_core` never emits exactly one pair. -/
theorem kana_core_sokuon_len {s mora : Char} {r : List Char}
    {p : List DisplayedTypedPair} {rest2 : List Char} {b : Bool}
    (h : kana_core (some s) mora r = .ok p rest2 b) : p.length ≠ 1 := by
  unfold kana_core at h
  split at h
  · split at h
    · exact mk_pairs_some_len h
    · exact mk_pairs_some_len h
  · exact mk_pairs_some_len h

/-- `kana_chunk` on a recognized unit followed by text that does not
start with a sutegana consumes exactly the unit's characters and displays
exactly them. -/
theorem kana_chunk_unit (u : KanaUnit) (rest : List Char)
    (hu : u.Recognized)
    (hnext : ∀ c, rest.head? = some c → ¬c ∈ SUTEGANA) :
    ∃ pairs, kana_chunk (u.chars ++ rest) = .ok pairs rest true ∧
      pairsChars pairs = u.chars := by
  obtain ⟨so, m, su⟩ := u
  obtain ⟨hs, hm, hd, htab⟩ := hu
  simp only [Option.toList] at hs hd htab
  simp only [KanaUnit.chars, Option.toList]
  have hsok := mora_not_sokuon hm
  obtain ⟨typed, htyped⟩ := Option.isSome_iff_exists.mp htab
  cases so with
  | none =>
    cases su with
    | none =>
      refine ⟨[⟨String.mk [m], typed⟩], ?_, ?_⟩
      · cases rest with
        | nil => simp [kana_chunk, kana_core, mk_pairs, hsok, hm, htyped]
        | cons c r =>
          have hc := hnext c rfl
          simp [kana_chunk, kana_core, mk_pairs, hsok, hm, htyped, hc]
      · simp [pairsChars, String.toList]
    | some d =>
      have hd2 : d ∈ SUTEGANA := hd d (by simp)
      refine ⟨[⟨String.mk [m, d], typed⟩], ?_, ?_⟩
      · simp [kana_chunk, kana_core, mk_pairs, hsok, hm, htyped, hd2]
      · simp [pairsChars, String.toList]
  | some s =>
    have hs2 : s ∈ SOKUON := hs s (by simp)
    cases su with
    | none =>
      refine ⟨[⟨String.mk [s], String.mk [typed.front]⟩,
               ⟨String.mk [m], typed⟩], ?_, ?_⟩
      · cases rest with
        | nil => simp [kana_chunk, kana_core, mk_pairs, hs2, hm, htyped]
        | cons c r =>
          have hc := hnext c rfl
          simp [kana_chunk, kana_core, mk_pairs, hs2, hm, htyped, hc]
      · simp [pairsChars, String.toList]
    | some d =>
      have hd2 : d ∈ SUTEGANA := hd d (by simp)
      refine ⟨[⟨String.mk [s], String.mk [typed.front]⟩,
               ⟨String.mk [m, d], typed⟩], ?_, ?_⟩
      · simp [kana_chunk, kana_core, mk_pairs, hs2, hm, htyped, hd2]
      · simp [pairsChars, String.toList]

/-- A successful `kana_chunk` decides the `choice` in `japanese`. -/
theorem chunk_step_of_kana {input : List Char}
    {pairs : List DisplayedTypedPair} {rest : List Char} {b : Bool}
    (h : kana_chunk input = .ok pairs rest b) :
    chunk_step input = .ok pairs rest b := by
  unfold chunk_step
  rw [h]

/-- A recognized unit never starts with a sutegana character. -/
theorem unit_head_not_sutegana (u : KanaUnit) (hu : u.Recognized) :
    ∀ c, u.chars.head? = some c → ¬c ∈ SUTEGANA := by
  obtain ⟨so, m, su⟩ := u
  obtain ⟨hs, hm, _, _⟩ := hu
  intro c hc
  cases so with
  | none =>
    have hcm : c = m := by
      simp [KanaUnit.chars, Option.toList] at hc
      exact hc.symm
    subst hcm
    exact mora_not_sutegana hm
  | some s =>
    have hcs : c = s := by
      simp [KanaUnit.chars, Option.toList] at hc
      exact hc.symm
    have hss : s ∈ SOKUON := by
      have h2 := hs
      simp [Option.toList] at h2
      exact h2
    rw [hcs]
    exact sokuon_disjoint s hss

/-- The text of a list of recognized units never starts with a
sutegana character. -/
theorem unitsChars_head_not_sutegana (units : List KanaUnit)
    (h : ∀ u ∈ units, u.Recognized) :
    ∀ c, (unitsChars units).head? = some c → ¬c ∈ SUTEGANA := by
  cases units with
  | nil => intro c hc; cases hc
  | cons u us =>
    intro c hc
    have hu := h u (by simp)
    apply unit_head_not_sutegana u hu c
    obtain ⟨so, m, su⟩ := u
    cases so with
    | none =>
      simp only [unitsChars, List.map_cons, List.flatten_cons,
        KanaUnit.chars, Option.toList, List.nil_append,
        List.cons_append, List.head?_cons] at hc ⊢
      exact hc
    | some s =>
      simp only [unitsChars, List.map_cons, List.flatten_cons,
        KanaUnit.chars, Option.toList, List.cons_append,
        List.head?_cons] at hc ⊢
      exact hc

/-- The characters of one unit followed by more units. -/
theorem unitsChars_cons (u : KanaUnit) (us : List KanaUnit) :
    unitsChars (u :: us) = u.chars ++ unitsChars us := by
  simp [unitsChars]

/-- A unit always covers at least one character. -/
theorem unit_chars_ne (u : KanaUnit) : u.chars.length ≠ 0 := by
  obtain ⟨so, m, su⟩ := u
  simp [KanaUnit.chars]

/-- `pairsChars` distributes over append. -/
theorem pairsChars_append (a b : List DisplayedTypedPair) :
    pairsChars (a ++ b) = pairsChars a ++ pairsChars b := by
  simp [pairsChars]

/-- The fueled loop of `japanese`, run on the text of recognized units
with sufficient fuel, consumes everything and displays the unit text. -/
theorem many_chunks_fuel_units : ∀ (units : List KanaUnit) (n : Nat),
    (unitsChars units).length ≤ n → (∀ u ∈ units, u.Recognized) →
    ∃ parts b, many_chunks_fuel n (unitsChars units) = .ok parts [] b ∧
      pairsChars parts.flatten = unitsChars units := by
  intro units
  induction units with
  | nil =>
    intro n _ _
    refine ⟨[], false, ?_, ?_⟩
    · simp only [unitsChars, List.map_nil, List.flatten_nil,
        many_chunks_fuel_nil]
    · simp [pairsChars, unitsChars]
  | cons u us ih =>
    intro n hn hrec
    rw [unitsChars_cons] at hn ⊢
    obtain ⟨pairs, hstep, hcov⟩ :=
      kana_chunk_unit u (unitsChars us) (hrec u (by simp))
        (unitsChars_head_not_sutegana us (fun v hv => hrec v (by simp [hv])))
    have hstep2 := chunk_step_of_kana hstep
    cases n with
    | zero =>
      exfalso
      rw [List.length_append] at hn
      have := unit_chars_ne u
      omega
    | succ n =>
      have hn2 : (unitsChars us).length ≤ n := by
        rw [List.length_append] at hn
        have := unit_chars_ne u
        omega
      obtain ⟨parts, b, hrest, hcov2⟩ := ih n hn2 (fun v hv => hrec v (by simp [hv]))
      refine ⟨pairs :: parts, true, ?_, ?_⟩
      · simp only [many_chunks_fuel, hstep2, hrest]
      · simp only [List.flatten_cons, pairsChars_append, hcov, hcov2]

/-- Claim C1 (counterexample): on input "京(とかんだと)" the furigana rule
emits one chunk displaying "京", but its accepted spelling is
"tokanndato" — the concatenated romanization of the kana between the
parentheses, produced by running the kana rules over them — not the
literal text "とかんだと" the claim requires. -/
theorem claim_C1_counterexample :
    parenthetical ("京(とかんだと)".toList) =
      .ok ⟨"京", "tokanndato"⟩ [] true ∧
    ("tokanndato" : String) ≠ "とかんだと" :=
  ⟨by decide, by decide⟩

/-- Claim C1 (amended): chunking "京(とかんだと)" emits exactly one chunk
displaying "京" whose single accepted spelling is "tokanndato": the
parenthetical content IS re-decomposed through the kana romanization
rules (と→to, か→ka, ん→nn, だ→da, と→to) and the spellings are
concatenated into one typed string. -/
theorem claim_C1_furigana_romanized :
    japanese ("京(とかんだと)".toList) =
      .ok ⟨["京"], ["tokanndato"], false, false⟩ [] true ∧
    kana_to_typed_chunks ['と'] = some "to" ∧
    kana_to_typed_chunks ['か'] = some "ka" ∧
    kana_to_typed_chunks ['ん'] = some "nn" ∧
    kana_to_typed_chunks ['だ'] = some "da" :=
  ⟨by decide, by decide, by decide, by decide, by decide⟩

/-- Claim C2 (counterexample): the chunk emitted for input "し" carries
the single accepted spelling "shi"; its spelling list is ["shi"], not the
two-element list ["shi", "si"] the claim requires. -/
theorem claim_C2_counterexample :
    japanese ("し".toList) = .ok ⟨["し"], ["shi"], false, false⟩ [] true ∧
    (["shi"] : List String) ≠ ["shi", "si"] :=
  ⟨by decide, by decide⟩

/-- Claim C2 (amended): table lookup of the mora "し" returns exactly one
spelling, "shi", and chunking "し" emits one chunk whose accepted
spellings are exactly ["shi"]; the table maps each kana unit to at most
one spelling ("si" is never returned). -/
theorem claim_C2_single_spelling :
    kana_to_typed_chunks ['し'] = some "shi" ∧
    japanese ("し".toList) = .ok ⟨["し"], ["shi"], false, false⟩ [] true :=
  ⟨by decide, by decide⟩

/-- Claim C3 (counterexample): the chunker does fail outright: on "あxか"
the unsupported character "x" makes the whole call return a consumed
parse error — the chunk for the preceding "あ" is lost too — and the
single unsupported character "x" alone also fails. -/
theorem claim_C3_counterexample :
    japanese ("あxか".toList) = .err true ∧
    japanese ("x".toList) = .err true :=
  ⟨by decide, by decide⟩

/-- Claim C3 (amended): an unsupported character is not skipped: whenever
the input starts with a character that is no sokuon and no mora, and no
opening parenthesis occurs anywhere (so the furigana rule cannot
apply), the whole chunking call fails with a consumed error. -/
theorem claim_C3_hard_error (c : Char) (rest : List Char)
    (hs : ¬c ∈ SOKUON) (hm : ¬(c ∈ HIRAGANA ∨ c ∈ KATAKANA))
    (hp : '(' ∉ c :: rest) :
    japanese (c :: rest) = .err true := by
  have hk : kana_chunk (c :: rest) = .err false := by
    simp [kana_chunk, hs, hm]
  have hdrop : (c :: rest).dropWhile (fun x => x != '(') = [] := by
    rw [List.dropWhile_eq_nil_iff]
    intro a ha
    simp only [bne_iff_ne, ne_eq]
    intro h2
    subst h2
    exact hp ha
  have htake : (c :: rest).takeWhile (fun x => x != '(') = c :: rest := by
    have h2 := List.takeWhile_append_dropWhile
      (p := fun x => x != '(') (l := c :: rest)
    rw [hdrop, List.append_nil] at h2
    exact h2
  have hpar : parenthetical (c :: rest) = .err true := by
    simp [parenthetical, hdrop, htake]
  have hstep : chunk_step (c :: rest) = .err true := by
    simp [chunk_step, hk, hpar]
  simp [japanese, hstep]

/-- Claim C3 (witness): the amended statement at the concrete unsupported
input "x". -/
theorem claim_C3_witness : japanese ("x".toList) = .err true :=
  claim_C3_hard_error 'x' [] (by decide) (by decide) (by decide)

/-- Claim C4 (counterexample): on "にぁ" the sutegana "ぁ" IS consumed
together with the mora "に" even though "にぁ" has no table entry: the
whole input is consumed, no chunk at all is emitted (not even one for
"に"), and "ぁ" is not re-examined as the start of the next unit. -/
theorem claim_C4_counterexample :
    kana_chunk ("にぁ".toList) = .ok [] [] true ∧
    japanese ("にぁ".toList) = .ok ⟨[], [], false, false⟩ [] true :=
  ⟨by decide, by decide⟩

/-- Claim C4 (amended): a small-vowel character immediately following a
mora is always consumed with it; when the combined string has no table
entry the entire unit (mora and small-vowel) is consumed and contributes
no chunk, so the small-vowel indeed never appears in the previous chunk's
displayed text — but only because no chunk is emitted at all, and it is
not left at the cursor. -/
theorem claim_C4_sutegana_consumed (m d : Char) (rest : List Char)
    (hm : m ∈ HIRAGANA ∨ m ∈ KATAKANA) (hd : d ∈ SUTEGANA)
    (hnone : kana_to_typed_chunks [m, d] = none) :
    kana_chunk (m :: d :: rest) = .ok [] rest true := by
  have hs := mora_not_sokuon hm
  simp [kana_chunk, kana_core, mk_pairs, hs, hm, hd, hnone]

/-- Claim C4 (witness): the amended statement at the concrete input
"にぁ". -/
theorem claim_C4_witness : kana_chunk ("にぁ".toList) = .ok [] [] true :=
  claim_C4_sutegana_consumed 'に' 'ぁ' [] (by decide) (by decide) (by decide)

/-- Claim C5 (counterexample): for the run-plus-parentheses input "京()"
the furigana rule emits a chunk whose single accepted spelling is the
EMPTY string, violating the claim that every accepted spelling is
non-empty. -/
theorem claim_C5_counterexample :
    parenthetical ("京()".toList) = .ok ⟨"京", ""⟩ [] true ∧
    japanese ("京()".toList) = .ok ⟨["京"], [""], false, false⟩ [] true :=
  ⟨by decide, by decide⟩

/-- Claim C5 (amended): every chunk the kana-run rule emits has a
non-empty displayed string and a non-empty accepted spelling, and a chunk
emitted by the furigana rule has a non-empty displayed string — but its
accepted spelling may be empty (e.g. for "京()"). -/
theorem claim_C5_nonempty (input : List Char) :
    (∀ pairs rest b, kana_chunk input = .ok pairs rest b →
      ∀ f ∈ pairs, f.displayed ≠ "" ∧ f.typed ≠ "") ∧
    (∀ pair rest b, parenthetical input = .ok pair rest b →
      pair.displayed ≠ "") :=
  ⟨fun _ _ _ h => kana_chunk_pairs_ne h,
   fun _ _ _ h => parenthetical_displayed_ne h⟩

/-- Claim C5 (witness): the amended statement applied at the concrete
inputs "か" (kana rule) and "京(か)" (furigana rule). -/
theorem claim_C5_witness :
    ((⟨"か", "ka"⟩ : DisplayedTypedPair).displayed ≠ "" ∧
     (⟨"か", "ka"⟩ : DisplayedTypedPair).typed ≠ "") ∧
    (⟨"京", "ka"⟩ : DisplayedTypedPair).displayed ≠ "" :=
  ⟨(claim_C5_nonempty ("か".toList)).1 [⟨"か", "ka"⟩] [] true (by decide)
      ⟨"か", "ka"⟩ (by simp),
   (claim_C5_nonempty ("京(か)".toList)).2 ⟨"京", "ka"⟩ [] true (by decide)⟩

/-- Claim C6: for any non-empty input composed entirely of
table-recognized kana units, chunking succeeds, consumes the whole input,
and concatenating the displayed fields of all emitted chunks in order
reproduces the input exactly. -/
theorem claim_C6_coverage (units : List KanaUnit) (hne : units ≠ [])
    (hrec : ∀ u ∈ units, u.Recognized) :
    ∃ t, japanese (unitsChars units) = .ok t [] true ∧
      (t.displayed_chunks.map String.toList).flatten = unitsChars units := by
  cases units with
  | nil => exact absurd rfl hne
  | cons u us =>
    obtain ⟨pairs, hstep, hcov⟩ :=
      kana_chunk_unit u (unitsChars us) (hrec u (by simp))
        (unitsChars_head_not_sutegana us (fun v hv => hrec v (by simp [hv])))
    have hstep2 := chunk_step_of_kana hstep
    obtain ⟨parts, b, hrest, hcov2⟩ :=
      many_chunks_fuel_units us (unitsChars us).length (Nat.le_refl _)
        (fun v hv => hrec v (by simp [hv]))
    rw [unitsChars_cons]
    refine ⟨mk_target (pairs :: parts), ?_, ?_⟩
    · simp only [japanese, hstep2, many_chunks, hrest]
    · simp only [mk_target, List.flatten_cons, List.map_append,
        List.flatten_append, List.map_map]
      show pairsChars pairs ++ pairsChars parts.flatten = _
      rw [hcov, hcov2]

/-- Claim C6 (witness): the coverage invariant at the concrete unit list
for "きゃっかん" (digraph, sokuon unit, plain mora). -/
theorem claim_C6_witness :
    ∃ t, japanese (unitsChars
        [⟨none, 'き', some 'ゃ'⟩, ⟨some 'っ', 'か', none⟩,
         ⟨none, 'ん', none⟩]) = .ok t [] true ∧
      (t.displayed_chunks.map String.toList).flatten = unitsChars
        [⟨none, 'き', some 'ゃ'⟩, ⟨some 'っ', 'か', none⟩,
         ⟨none, 'ん', none⟩] :=
  claim_C6_coverage _ (by decide) (by decide)

/-- Claim C7: "っか" chunks to exactly two chunks, the sokuon chunk
{displayed "っ", accepted "k"} then {displayed "か", accepted "ka"}; and
in general prepending a sokuon character to any input whose kana rule
emits exactly one pair yields that pair prefixed by a one-character chunk
displaying the sokuon and accepting the first character of the following
unit's spelling. -/
theorem claim_C7_sokuon :
    japanese ("っか".toList) =
      .ok ⟨["っ", "か"], ["k", "ka"], false, false⟩ [] true ∧
    ∀ (s : Char) (ms : List Char) (dp : DisplayedTypedPair)
      (rest2 : List Char), s ∈ SOKUON →
      kana_chunk ms = .ok [dp] rest2 true →
      kana_chunk (s :: ms) =
        .ok [⟨String.mk [s], String.mk [dp.typed.front]⟩, dp] rest2 true := by
  constructor
  · decide
  · intro s ms dp rest2 hs h
    unfold kana_chunk at h
    split at h
    · cases h
    · split at h
      · split at h
        · split at h
          · exact absurd (by simp) (kana_core_sokuon_len h)
          · cases h
        · cases h
      · split at h
        · rename_i hcm
          have hcore := kana_core_sokuon_of s h
          simp [kana_chunk, hs, hcm, hcore]
        · cases h

/-- Claim C7 (witness): the general sokuon statement applied at "っ"
before "か". -/
theorem claim_C7_witness :
    ('っ' ∈ SOKUON) ∧
    kana_chunk ("か".toList) = .ok [⟨"か", "ka"⟩] [] true ∧
    kana_chunk ("っか".toList) =
      .ok [⟨String.mk ['っ'], String.mk [("ka" : String).front]⟩,
           ⟨"か", "ka"⟩] [] true :=
  ⟨by decide, by decide,
   claim_C7_sokuon.2 'っ' ("か".toList) ⟨"か", "ka"⟩ [] (by decide) (by decide)⟩

/-- Claim C8 (counterexample): an opening parenthesis with no matching
closing parenthesis is fatal for the whole chunking call: on "京(あ" the
furigana rule fails after consuming input and `japanese` returns a
consumed error instead of falling back. -/
theorem claim_C8_counterexample : japanese ("京(あ".toList) = .err true :=
  by decide

/-- Claim C8 (amended): when the furigana rule meets an unmatched opening
parenthesis it fails with a CONSUMED error, which aborts the whole
chunking call rather than backtracking — even chunks already recognized
earlier in the input are lost ("あ京(か" fails although "あ" had been
chunked). -/
theorem claim_C8_no_backtracking :
    parenthetical ("京(あ".toList) = .err true ∧
    japanese ("あ京(か".toList) = .err true ∧
    japanese ("あ".toList) = .ok ⟨["あ"], ["a"], false, false⟩ [] true :=
  ⟨by decide, by decide, by decide⟩

/-- Claim C9: the chunker terminates on every input: each successful
iteration of the scan consumes at least one character, and fuel equal to
the input length is always enough for the scanning loop, so the number of
iterations is bounded by the input length. -/
theorem claim_C9_termination :
    (∀ (input : List Char) pairs rest b,
      chunk_step input = .ok pairs rest b → rest.length < input.length) ∧
    (∀ (input : List Char) (n : Nat), input.length ≤ n →
      many_chunks_fuel n input = many_chunks input) :=
  ⟨fun _ _ _ _ h => chunk_step_rest h,
   fun input n h => many_chunks_fuel_congr n input.length input h (Nat.le_refl _)⟩

/-- Claim C9 (witness): the termination bound at the concrete input
"あ". -/
theorem claim_C9_witness :
    (([] : List Char).length < ("あ".toList).length) ∧
    many_chunks_fuel 5 ("あ".toList) = many_chunks ("あ".toList) :=
  ⟨claim_C9_termination.1 ("あ".toList) [⟨"あ", "a"⟩] [] true (by decide),
   claim_C9_termination.2 ("あ".toList) 5 (by decide)⟩

/-- Claim C10: the single-character inputs "ん" and "ン" each chunk to one
chunk whose sole accepted spelling is "nn"; the spelling "n" alone is not
among the accepted spellings. -/
theorem claim_C10_nn :
    japanese ("ん".toList) = .ok ⟨["ん"], ["nn"], false, false⟩ [] true ∧
    japanese ("ン".toList) = .ok ⟨["ン"], ["nn"], false, false⟩ [] true ∧
    ¬("n" : String) ∈ (["nn"] : List String) :=
  ⟨by decide, by decide, by decide⟩
